import Mathlib

/-!
Verification of the effect-mdx document pipeline.

The development shallowly embeds the pure logic of `src/config.ts` (utility
part: `toJSONValue`, `sanitizeToMetadata`, `updateMdxContent`,
`validateFrontmatterFence`) and `src/service.ts` (`parseMdxFile`,
`compileMdx` option resolution, `extractParameters`).

JavaScript runtime values are modelled by the inductive type `JSValue`;
strings are handled through their character lists so that all definitions
compute.  The metadata codec (the `gray-matter` library) is an external
collaborator of the repository; it is modelled as an abstract `Codec`
record whose contract (parse may throw with a message, serialize is total)
follows the specification of the external interface.
-/

namespace EffectMdx

/-- A JavaScript runtime value.  `func` and `sym` carry their `String(v)`
printed form. -/
inductive JSValue : Type where
  | null : JSValue
  | undefined : JSValue
  | bool : Bool → JSValue
  | num : Int → JSValue
  | str : String → JSValue
  | func : String → JSValue
  | sym : String → JSValue
  | arr : List JSValue → JSValue
  | obj : List (String × JSValue) → JSValue

/-- The JavaScript `typeof` operator, restricted to the modelled values. -/
def typeofStr : JSValue → String
  | JSValue.null => "object"
  | JSValue.undefined => "undefined"
  | JSValue.bool _ => "boolean"
  | JSValue.num _ => "number"
  | JSValue.str _ => "string"
  | JSValue.func _ => "function"
  | JSValue.sym _ => "symbol"
  | JSValue.arr _ => "object"
  | JSValue.obj _ => "object"

/-- JavaScript truthiness of a value. -/
def truthy : JSValue → Bool
  | JSValue.null => false
  | JSValue.undefined => false
  | JSValue.bool b => b
  | JSValue.num n => decide (n ≠ 0)
  | JSValue.str s => decide (s ≠ "")
  | JSValue.func _ => true
  | JSValue.sym _ => true
  | JSValue.arr _ => true
  | JSValue.obj _ => true

/-- Is the value the JavaScript `null`? -/
def isNull : JSValue → Bool
  | JSValue.null => true
  | _ => false

/-- Property access `v[k]`: `undefined` when absent or when `v` is not an
object with that key (array index properties are not needed here). -/
def getProp : JSValue → String → JSValue
  | JSValue.obj fields, k => (List.lookup k fields).getD JSValue.undefined
  | _, _ => JSValue.undefined

/-- The JavaScript `k in v` test for the modelled values. -/
def hasProp : JSValue → String → Bool
  | JSValue.obj fields, k => (List.lookup k fields).isSome
  | _, _ => false

/-- `Object.entries(v)`. -/
def entriesOf : JSValue → List (String × JSValue)
  | JSValue.obj fields => fields
  | JSValue.arr xs => xs.enum.map (fun p => (toString p.1, p.2))
  | _ => []

/-- Count occurrences of a character in a character list
(models `s.match(/c/g)?.length ?? 0`). -/
def countChar (c : Char) : List Char → Nat
  | [] => 0
  | x :: xs => (if x = c then 1 else 0) + countChar c xs

/-- Scan helper for `indexOfFrom`. -/
def indexOfAux (needle : List Char) : List Char → Nat → Option Nat
  | [], i => if needle.isEmpty then some i else none
  | x :: xs, i =>
    if List.isPrefixOf needle (x :: xs) then some i else indexOfAux needle xs (i + 1)

/-- `hay.indexOf(needle, start)` of JavaScript, with `none` for `-1`. -/
def indexOfFrom (hay needle : List Char) (start : Nat) : Option Nat :=
  indexOfAux needle (hay.drop start) start

/-- The error values that can be raised by the embedded code:
`invalidMdxFormat` models `InvalidMdxFormatError{reason, cause}` from
`src/errors.ts`, `codecError` models an exception thrown by the external
metadata codec, carrying its message. -/
inductive Exc : Type where
  | invalidMdxFormat : String → Option Exc → Exc
  | codecError : String → Exc

/-- The `.message` of the underlying JavaScript `Error`. -/
def Exc.message : Exc → String
  | Exc.invalidMdxFormat r _ => r
  | Exc.codecError m => m

/-- `validateFrontmatterFence` from `src/config.ts` (utility section):
if the content starts with `---`, look for `\n---` from index 3; when found,
count double quotes in the slice between index 3 and the match and reject a
nonzero odd count. -/
def validateFrontmatterFence (content : String) : Except Exc Unit :=
  let cs := content.data
  if List.isPrefixOf "---".data cs then
    match indexOfFrom cs "\n---".data 3 with
    | some e =>
      if e > 0 then
        let fm := (cs.drop 3).take (e - 3)
        let dq := countChar '"' fm
        if dq > 0 && dq % 2 == 1 then
          Except.error (Exc.invalidMdxFormat "Unbalanced quotes detected in frontmatter" none)
        else Except.ok ()
      else Except.ok ()
    | none => Except.ok ()
  else Except.ok ()

/-- The external metadata codec (`gray-matter`): `parse` splits text into
frontmatter and body and may throw (the error is its message string);
`stringify body meta` serializes `meta` in front of `body`. -/
structure Codec : Type where
  parse : String → Except String (List (String × JSValue) × String)
  stringify : String → List (String × JSValue) → String

/-- The body of the `Effect.try` block of `parseMdxFile` in
`src/service.ts`: run the fence validator, then the codec. -/
def tryParse (codec : Codec) (content : String) :
    Except Exc (List (String × JSValue) × String) :=
  match validateFrontmatterFence content with
  | Except.error e => Except.error e
  | Except.ok _ =>
    match codec.parse content with
    | Except.error m => Except.error (Exc.codecError m)
    | Except.ok r => Except.ok r

/-- The `catch` handler of `parseMdxFile`: every thrown error is wrapped
into a fresh `InvalidMdxFormatError` whose reason embeds the thrown error's
message and whose cause is the thrown error itself. -/
def wrapParseError (e : Exc) : Exc :=
  Exc.invalidMdxFormat ("Failed to parse MDX content: " ++ Exc.message e) (some e)

/-- `parseMdxFile` from `src/service.ts`. -/
def parseMdxFile (codec : Codec) (content : String) :
    Except Exc (List (String × JSValue) × String) :=
  match tryParse codec content with
  | Except.error e => Except.error (wrapParseError e)
  | Except.ok r => Except.ok r

/-- `updateMdxContent` from `src/config.ts` (utility section): re-parse the
original to recover its body, then serialize the new frontmatter in front of
it.  A codec exception propagates unwrapped (the function has no handler). -/
def updateMdxContent (codec : Codec) (originalFullMdxContent : String)
    (updatedFrontmatter : List (String × JSValue)) : Except Exc String :=
  match codec.parse originalFullMdxContent with
  | Except.error m => Except.error (Exc.codecError m)
  | Except.ok r => Except.ok (codec.stringify r.2 updatedFrontmatter)

/-- Semantic equality of metadata mappings: every key looks up to the same
value (key order may differ). -/
def semEq (m1 m2 : List (String × JSValue)) : Prop :=
  ∀ k, List.lookup k m1 = List.lookup k m2

/-- A trivial codec used to instantiate the abstract collaborator in
witnesses: no document has a header. -/
def idCodec : Codec where
  parse := fun s => Except.ok ([], s)
  stringify := fun body _ => body

/-- A codec whose parse always throws, used to witness error wrapping. -/
def failingCodec : Codec where
  parse := fun _ => Except.error "boom"
  stringify := fun body _ => body

theorem parseMdxFile_ok_inv {codec : Codec} {t : String}
    {meta : List (String × JSValue)} {body : String}
    (h : parseMdxFile codec t = Except.ok (meta, body)) :
    validateFrontmatterFence t = Except.ok () ∧
      codec.parse t = Except.ok (meta, body) := by
  unfold parseMdxFile tryParse at h
  cases hv : validateFrontmatterFence t with
  | error e => rw [hv] at h; simp at h
  | ok u =>
    cases u
    rw [hv] at h
    cases hp : codec.parse t with
    | error m => rw [hp] at h; simp at h
    | ok r =>
      rw [hp] at h
      simp at h
      exact ⟨rfl, congrArg Except.ok h⟩

/-- C1: for every text accepted by `split` (`parseMdxFile`), producing
metadata and body, reconstructing via `updateMdxContent` with that metadata
and splitting the result again succeeds, yields the same body, and yields
semantically equal metadata.  The metadata codec is the external
collaborator; the hypotheses `hparse2`, `hsem` and `hfence` state its
round-trip contract at the relevant serialization. -/
theorem c1_split_reconstruct_roundtrip (codec : Codec) (t : String)
    (meta meta' : List (String × JSValue)) (body : String)
    (hsplit : parseMdxFile codec t = Except.ok (meta, body))
    (hparse2 : codec.parse (codec.stringify body meta) = Except.ok (meta', body))
    (hsem : semEq meta' meta)
    (hfence : validateFrontmatterFence (codec.stringify body meta) = Except.ok ()) :
    ∃ r meta2, updateMdxContent codec t meta = Except.ok r ∧
      parseMdxFile codec r = Except.ok (meta2, body) ∧ semEq meta2 meta := by
  obtain ⟨hfence_t, hparse_t⟩ := parseMdxFile_ok_inv hsplit
  refine ⟨codec.stringify body meta, meta', ?_, ?_, hsem⟩
  · simp [updateMdxContent, hparse_t]
  · simp [parseMdxFile, tryParse, hfence, hparse2]

/-- C1 witness: the contract hypotheses and the conclusion instantiated at
the trivial codec and the headerless document `"hello"`. -/
theorem c1_witness :
    parseMdxFile idCodec "hello" = Except.ok ([], "hello") ∧
    idCodec.parse (idCodec.stringify "hello" []) = Except.ok ([], "hello") ∧
    semEq [] [] ∧
    validateFrontmatterFence (idCodec.stringify "hello" []) = Except.ok () ∧
    (∃ r meta2, updateMdxContent idCodec "hello" [] = Except.ok r ∧
      parseMdxFile idCodec r = Except.ok (meta2, "hello") ∧ semEq meta2 []) :=
  ⟨rfl, rfl, fun _ => rfl, rfl,
    c1_split_reconstruct_roundtrip idCodec "hello" [] [] "hello" rfl rfl
      (fun _ => rfl) rfl⟩

/-- C3: `parseMdxFile` only ever fails with an `InvalidMdxFormatError`
(never with the codec's own exception), and when the fence check passes and
the codec throws with message `m`, the failure's reason embeds `m` and its
cause is the original codec exception. -/
theorem c3_error_encapsulation :
    (∀ (codec : Codec) (content : String),
      (∃ v, parseMdxFile codec content = Except.ok v) ∨
      (∃ r e0, parseMdxFile codec content =
        Except.error (Exc.invalidMdxFormat r (some e0)))) ∧
    (∀ (codec : Codec) (content : String) (m : String),
      validateFrontmatterFence content = Except.ok () →
      codec.parse content = Except.error m →
      parseMdxFile codec content =
        Except.error (Exc.invalidMdxFormat ("Failed to parse MDX content: " ++ m)
          (some (Exc.codecError m)))) := by
  constructor
  · intro codec content
    cases h : tryParse codec content with
    | ok v => exact Or.inl ⟨v, by simp [parseMdxFile, h]⟩
    | error e =>
      exact Or.inr ⟨"Failed to parse MDX content: " ++ Exc.message e, e,
        by simp [parseMdxFile, h, wrapParseError]⟩
  · intro codec content m hf hp
    simp [parseMdxFile, tryParse, hf, hp, wrapParseError, Exc.message]

/-- C3 witness: a codec that throws `"boom"` on the headerless document
`"hello"` surfaces as a wrapped `InvalidMdxFormatError` with the codec's
message in the reason and the original exception as cause. -/
theorem c3_witness :
    validateFrontmatterFence "hello" = Except.ok () ∧
    failingCodec.parse "hello" = Except.error "boom" ∧
    parseMdxFile failingCodec "hello" =
      Except.error (Exc.invalidMdxFormat "Failed to parse MDX content: boom"
        (some (Exc.codecError "boom"))) :=
  ⟨rfl, rfl, c3_error_encapsulation.2 failingCodec "hello" "boom" rfl rfl⟩

/-- C9: reconstruction never fails — for every original accepted by
`parseMdxFile` and every new frontmatter, `updateMdxContent` returns
(without failing) the codec serialization of the new metadata in front of
the body recovered from the original; the old metadata `meta` is discarded
(it does not occur in the result). -/
theorem c9_reconstruct_never_fails (codec : Codec) (orig : String)
    (meta : List (String × JSValue)) (body : String)
    (newMetadata : List (String × JSValue))
    (hsplit : parseMdxFile codec orig = Except.ok (meta, body)) :
    updateMdxContent codec orig newMetadata =
      Except.ok (codec.stringify body newMetadata) := by
  obtain ⟨-, hp⟩ := parseMdxFile_ok_inv hsplit
  simp [updateMdxContent, hp]

/-- C9 witness: instantiated at the trivial codec, original `"hello"` and a
fresh `title` field. -/
theorem c9_witness :
    parseMdxFile idCodec "hello" = Except.ok ([], "hello") ∧
    updateMdxContent idCodec "hello" [("title", JSValue.str "New")] =
      Except.ok "hello" :=
  ⟨rfl, c9_reconstruct_never_fails idCodec "hello" [] "hello"
    [("title", JSValue.str "New")] rfl⟩

/-- An index returned by `indexOfAux` is at least the starting index. -/
theorem indexOfAux_start_le (needle : List Char) :
    ∀ (cs : List Char) (start r : Nat),
      indexOfAux needle cs start = some r → start ≤ r := by
  intro cs
  induction cs with
  | nil =>
    intro start r h
    unfold indexOfAux at h
    split at h
    · cases h; exact Nat.le_refl _
    · cases h
  | cons x xs ih =>
    intro start r h
    unfold indexOfAux at h
    split at h
    · cases h; exact Nat.le_refl _
    · exact Nat.le_of_succ_le (ih (start + 1) r h)

/-- C2: for every text that begins with the fence marker and in which the
validator captures a header region (a `\n---` occurrence from index 3), a
nonzero odd double-quote count in that region makes `parseMdxFile` fail with
an `InvalidMdxFormatError` whose cause is the fence error, for every codec —
so before the metadata codec is invoked; moreover the balanced-quote example
of the claim passes validation. -/
theorem c2_fence_quote_heuristic :
    (∀ (content : String) (e : Nat),
      List.isPrefixOf "---".data content.data = true →
      indexOfFrom content.data "\n---".data 3 = some e →
      0 < countChar '"' ((content.data.drop 3).take (e - 3)) →
      countChar '"' ((content.data.drop 3).take (e - 3)) % 2 = 1 →
      validateFrontmatterFence content =
        Except.error (Exc.invalidMdxFormat
          "Unbalanced quotes detected in frontmatter" none) ∧
      ∀ codec : Codec, ∃ r, parseMdxFile codec content =
        Except.error (Exc.invalidMdxFormat r
          (some (Exc.invalidMdxFormat
            "Unbalanced quotes detected in frontmatter" none)))) ∧
    validateFrontmatterFence "---\nkey: \"a\"\n---\nbody" = Except.ok () := by
  constructor
  · intro content e hpre hidx hpos hodd
    have h3 : 3 ≤ e := indexOfAux_start_le _ _ 3 e hidx
    have he : 0 < e := lt_of_lt_of_le (by norm_num) h3
    have hval : validateFrontmatterFence content =
        Except.error (Exc.invalidMdxFormat
          "Unbalanced quotes detected in frontmatter" none) := by
      unfold validateFrontmatterFence
      rw [if_pos hpre, hidx]
      simp [he, hpos, hodd]
    refine ⟨hval, ?_⟩
    intro codec
    refine ⟨"Failed to parse MDX content: Unbalanced quotes detected in frontmatter", ?_⟩
    simp [parseMdxFile, tryParse, hval, wrapParseError, Exc.message]
  · rfl

/-- C2 witness: the claim's unbalanced example, with its captured region and
odd quote count, fails for the trivial codec with a wrapped fence error. -/
theorem c2_witness :
    List.isPrefixOf "---".data ("---\nkey: \"a\n---\nbody").data = true ∧
    indexOfFrom ("---\nkey: \"a\n---\nbody").data "\n---".data 3 = some 11 ∧
    0 < countChar '"' ((("---\nkey: \"a\n---\nbody").data.drop 3).take (11 - 3)) ∧
    countChar '"' ((("---\nkey: \"a\n---\nbody").data.drop 3).take (11 - 3)) % 2 = 1 ∧
    (∃ r, parseMdxFile idCodec "---\nkey: \"a\n---\nbody" =
      Except.error (Exc.invalidMdxFormat r
        (some (Exc.invalidMdxFormat
          "Unbalanced quotes detected in frontmatter" none)))) :=
  ⟨rfl, rfl, by decide, by decide,
    (c2_fence_quote_heuristic.1 "---\nkey: \"a\n---\nbody" 11 rfl rfl
      (by decide) (by decide)).2 idCodec⟩

/-- C5 counterexample: a text that begins with the fence marker, has no
`\n---` occurrence (so no line exactly `---` after the opening marker), and
holds a single (odd, nonzero) double quote after the marker — yet the fence
validator succeeds, where the claim requires an unbalanced-quotes failure. -/
theorem c5_counterexample :
    List.isPrefixOf "---".data ("---\nkey: \"a").data = true ∧
    indexOfFrom ("---\nkey: \"a").data "\n---".data 3 = none ∧
    countChar '"' (("---\nkey: \"a").data.drop 3) = 1 ∧
    validateFrontmatterFence "---\nkey: \"a" = Except.ok () :=
  ⟨rfl, rfl, rfl, rfl⟩

/-- C5 amended: when the text has no `\n---` occurrence at or after index 3
(in particular when there is no closing fence line), the validator performs
no quote check at all and succeeds, delegating validity to the codec. -/
theorem c5_unclosed_header_no_check (content : String)
    (h : indexOfFrom content.data "\n---".data 3 = none) :
    validateFrontmatterFence content = Except.ok () := by
  unfold validateFrontmatterFence
  by_cases hp : List.isPrefixOf "---".data content.data
  · rw [if_pos hp, h]
  · rw [if_neg hp]

/-- C5 witness: the amended statement at the counterexample input. -/
theorem c5_witness :
    indexOfFrom ("---\nkey: \"a").data "\n---".data 3 = none ∧
    validateFrontmatterFence "---\nkey: \"a" = Except.ok () :=
  ⟨rfl, c5_unclosed_header_no_check "---\nkey: \"a" rfl⟩

/-- C6 counterexample: a text whose first line is `----` (not exactly
`---`), for which the claim requires trivial success — but the validator
only tests the three-character prefix, enters the fenced branch, and raises
the unbalanced-quotes error. -/
theorem c6_counterexample :
    ("----\nk: \"\n---\nx").data.takeWhile (fun c => c ≠ '\n') ≠ "---".data ∧
    validateFrontmatterFence "----\nk: \"\n---\nx" =
      Except.error (Exc.invalidMdxFormat
        "Unbalanced quotes detected in frontmatter" none) :=
  ⟨by decide, rfl⟩

/-- C6 amended: for every text that does not start with the three-character
prefix `---`, fence validation succeeds trivially regardless of the quote
count; texts whose first line merely starts with `---` (such as `----`) are
not covered, since the validator tests only the prefix. -/
theorem c6_no_fence_prefix_trivial (content : String)
    (h : List.isPrefixOf "---".data content.data = false) :
    validateFrontmatterFence content = Except.ok () := by
  unfold validateFrontmatterFence
  rw [if_neg (by simp [h])]

/-- C6 witness: a quote-laden text that does not start with `---` passes. -/
theorem c6_witness :
    List.isPrefixOf "---".data ("hello \"").data = false ∧
    validateFrontmatterFence "hello \"" = Except.ok () :=
  ⟨rfl, c6_no_fence_prefix_trivial "hello \"" rfl⟩

/-- The per-call option object of `compileMdx` (`MdxCompileOptions` in
`src/types.ts`), restricted to the plugin lists; `none` models an absent
(`undefined`) field, `some []` an explicitly supplied empty array (which is
truthy in JavaScript). -/
structure MdxCompileOptions (P : Type) : Type where
  remarkPlugins : Option (List P)
  rehypePlugins : Option (List P)

/-- The `remarkPlugins` argument built by `compileMdx` in `src/service.ts`:
`options?.remarkPlugins ? Array.from(options.remarkPlugins) :
Array.from(cfg.remarkPlugins)`. -/
def compileRemarkPlugins {P : Type} (cfg : List P)
    (options : Option (MdxCompileOptions P)) : List P :=
  match options with
  | some o =>
    match o.remarkPlugins with
    | some l => l
    | none => cfg
  | none => cfg

/-- The `rehypePlugins` argument built by `compileMdx` in `src/service.ts`. -/
def compileRehypePlugins {P : Type} (cfg : List P)
    (options : Option (MdxCompileOptions P)) : List P :=
  match options with
  | some o =>
    match o.rehypePlugins with
    | some l => l
    | none => cfg
  | none => cfg

/-- A pipeline applies its plugin stages in order to the document state. -/
def runPlugins {P B : Type} (invoke : P → B → B) (plugins : List P) (b : B) : B :=
  plugins.foldl (fun acc p => invoke p acc) b

/-- C4: a per-call plugin override replaces the configured list (no merge):
a supplied list — including the empty one — is used verbatim, an absent
field or absent options object leaves the configured list unchanged, and
for a service configured with pre-stage list `[A]` a call overriding with
`[]` builds a pipeline that never invokes `A` (it maps every state to
itself, for every interpretation of plugin invocation). -/
theorem c4_override_replaces :
    (∀ (P : Type) (cfg l : List P) (o : MdxCompileOptions P),
      o.remarkPlugins = some l → compileRemarkPlugins cfg (some o) = l) ∧
    (∀ (P : Type) (cfg : List P) (o : MdxCompileOptions P),
      o.remarkPlugins = none → compileRemarkPlugins cfg (some o) = cfg) ∧
    (∀ (P : Type) (cfg : List P), compileRemarkPlugins cfg none = cfg) ∧
    (∀ (P : Type) (cfg l : List P) (o : MdxCompileOptions P),
      o.rehypePlugins = some l → compileRehypePlugins cfg (some o) = l) ∧
    (∀ (P : Type) (cfg : List P) (o : MdxCompileOptions P),
      o.rehypePlugins = none → compileRehypePlugins cfg (some o) = cfg) ∧
    (∀ (P : Type) (cfg : List P), compileRehypePlugins cfg none = cfg) ∧
    (∀ (P B : Type) (a : P) (o : MdxCompileOptions P),
      o.remarkPlugins = some [] →
      ∀ (invoke : P → B → B) (b : B),
        runPlugins invoke (compileRemarkPlugins [a] (some o)) b = b) := by
  refine ⟨?_, ?_, ?_, ?_, ?_, ?_, ?_⟩
  · intro P cfg l o h; simp [compileRemarkPlugins, h]
  · intro P cfg o h; simp [compileRemarkPlugins, h]
  · intro P cfg; rfl
  · intro P cfg l o h; simp [compileRehypePlugins, h]
  · intro P cfg o h; simp [compileRehypePlugins, h]
  · intro P cfg; rfl
  · intro P B a o h invoke b; simp [compileRemarkPlugins, h, runPlugins]

/-- C4 witness: with configured list `["A"]`, the override `[]` yields the
empty pipeline (which invokes nothing on a sample state), while the call
without options uses the configured list unchanged. -/
theorem c4_witness :
    compileRemarkPlugins ["A"]
      (some { remarkPlugins := some [], rehypePlugins := none }) = [] ∧
    runPlugins (fun p s => s ++ p)
      (compileRemarkPlugins ["A"]
        (some { remarkPlugins := some [], rehypePlugins := none })) "x" = "x" ∧
    compileRemarkPlugins ["A"] (none : Option (MdxCompileOptions String)) = ["A"] :=
  ⟨c4_override_replaces.1 String ["A"] []
      { remarkPlugins := some [], rehypePlugins := none } rfl,
    c4_override_replaces.2.2.2.2.2.2 String String "A"
      { remarkPlugins := some [], rehypePlugins := none } rfl (fun p s => s ++ p) "x",
    c4_override_replaces.2.2.1 String ["A"]⟩

/-- `ParameterDefinition` from `src/types.ts`; `description`/`required` are
`none` when the source fields are `undefined`, and `default` carries the raw
property value (`JSValue.undefined` when absent). -/
structure ParameterDefinition : Type where
  type : String
  description : Option String
  required : Option Bool
  default : JSValue

/-- The five recognized parameter kinds of `extractParameters`. -/
def recognizedTypes : List String := ["string", "number", "boolean", "array", "object"]

/-- JavaScript object assignment `m[k] = v`: update the first occurrence of
the key in place, otherwise append. -/
def setKey {α : Type} : List (String × α) → String → α → List (String × α)
  | [], k, v => [(k, v)]
  | (k1, v1) :: rest, k, v =>
    if k1 = k then (k1, v) :: rest else (k1, v1) :: setKey rest k v

/-- `typeof paramValue.description === "string" ? ... : undefined`. -/
def descriptionOf (value : JSValue) : Option String :=
  match getProp value "description" with
  | JSValue.str d => some d
  | _ => none

/-- `typeof paramValue.required === "boolean" ? ... : undefined`. -/
def requiredOf (value : JSValue) : Option Bool :=
  match getProp value "required" with
  | JSValue.bool b => some b
  | _ => none

/-- The loop body of `extractParameters` in `src/service.ts`. -/
def extractStep (acc : List (String × ParameterDefinition))
    (kv : String × JSValue) : List (String × ParameterDefinition) :=
  let value := kv.2
  if typeofStr value == "object" && !(isNull value) && hasProp value "type" then
    match getProp value "type" with
    | JSValue.str t =>
      if recognizedTypes.contains t then
        setKey acc kv.1
          { type := t
          , description := descriptionOf value
          , required := requiredOf value
          , default := getProp value "default" }
      else acc
    | _ => acc
  else acc

/-- The `paramsObj` computed by `extractParameters`:
`(paramsNode && typeof paramsNode === "object") ? paramsNode : {}`,
followed by `Object.entries`. -/
def paramsObjOf (metadata : List (String × JSValue)) : List (String × JSValue) :=
  let paramsNode := (List.lookup "parameters" metadata).getD JSValue.undefined
  if truthy paramsNode && typeofStr paramsNode == "object" then
    entriesOf paramsNode
  else []

/-- `extractParameters` from `src/service.ts`. -/
def extractParameters (metadata : List (String × JSValue)) :
    List (String × ParameterDefinition) :=
  (paramsObjOf metadata).foldl extractStep []

/-- Modelled from the claim's wording: the projection applied to one entry
value — include it only when the value is an object whose `type` key holds
one of the five recognized kind strings. -/
def projectParamSpec (value : JSValue) : Option ParameterDefinition :=
  match value with
  | JSValue.obj fields =>
    match List.lookup "type" fields with
    | some (JSValue.str t) =>
      if recognizedTypes.contains t then
        some { type := t
             , description := descriptionOf (JSValue.obj fields)
             , required := requiredOf (JSValue.obj fields)
             , default := getProp (JSValue.obj fields) "default" }
      else none
    | _ => none
  | _ => none

/-- Declarative form of the claim: exactly the entries accepted by
`projectParamSpec`, in order, each paired with its projection. -/
def extractParametersSpec (metadata : List (String × JSValue)) :
    List (String × ParameterDefinition) :=
  (paramsObjOf metadata).filterMap
    (fun kv => (projectParamSpec kv.2).map (fun d => (kv.1, d)))

theorem setKey_of_not_mem {α : Type} (m : List (String × α)) (k : String) (v : α)
    (h : k ∉ m.map Prod.fst) : setKey m k v = m ++ [(k, v)] := by
  induction m with
  | nil => rfl
  | cons kv rest ih =>
    obtain ⟨k1, v1⟩ := kv
    simp only [List.map_cons, List.mem_cons] at h
    push_neg at h
    obtain ⟨hne, hrest⟩ := h
    simp only [setKey, if_neg (Ne.symm hne), List.cons_append]
    rw [ih hrest]

theorem extractStep_eq_project (acc : List (String × ParameterDefinition))
    (kv : String × JSValue) :
    extractStep acc kv =
      match projectParamSpec kv.2 with
      | some d => setKey acc kv.1 d
      | none => acc := by
  obtain ⟨k, value⟩ := kv
  cases value with
  | obj fields =>
    cases hl : List.lookup "type" fields with
    | none =>
      simp [extractStep, projectParamSpec, typeofStr, isNull, hasProp, hl]
    | some tv =>
      cases tv with
      | str t =>
        by_cases ht : t ∈ recognizedTypes
        · simp [extractStep, projectParamSpec, typeofStr, isNull, hasProp,
            getProp, hl, ht]
        · simp [extractStep, projectParamSpec, typeofStr, isNull, hasProp,
            getProp, hl, ht]
      | null => simp [extractStep, projectParamSpec, typeofStr, isNull, hasProp, getProp, hl]
      | undefined => simp [extractStep, projectParamSpec, typeofStr, isNull, hasProp, getProp, hl]
      | bool b => simp [extractStep, projectParamSpec, typeofStr, isNull, hasProp, getProp, hl]
      | num n => simp [extractStep, projectParamSpec, typeofStr, isNull, hasProp, getProp, hl]
      | func f => simp [extractStep, projectParamSpec, typeofStr, isNull, hasProp, getProp, hl]
      | sym s => simp [extractStep, projectParamSpec, typeofStr, isNull, hasProp, getProp, hl]
      | arr xs => simp [extractStep, projectParamSpec, typeofStr, isNull, hasProp, getProp, hl]
      | obj fs => simp [extractStep, projectParamSpec, typeofStr, isNull, hasProp, getProp, hl]
  | null => simp [extractStep, projectParamSpec, typeofStr, isNull]
  | undefined => simp [extractStep, projectParamSpec, typeofStr]
  | bool b => simp [extractStep, projectParamSpec, typeofStr]
  | num n => simp [extractStep, projectParamSpec, typeofStr]
  | str s => simp [extractStep, projectParamSpec, typeofStr]
  | func f => simp [extractStep, projectParamSpec, typeofStr]
  | sym s => simp [extractStep, projectParamSpec, typeofStr]
  | arr xs => simp [extractStep, projectParamSpec, typeofStr, isNull, hasProp]

theorem extractStep_of_project_none (acc : List (String × ParameterDefinition))
    (kv : String × JSValue) (h : projectParamSpec kv.2 = none) :
    extractStep acc kv = acc := by
  rw [extractStep_eq_project, h]

theorem extractStep_of_project_some (acc : List (String × ParameterDefinition))
    (kv : String × JSValue) (d : ParameterDefinition)
    (h : projectParamSpec kv.2 = some d) :
    extractStep acc kv = setKey acc kv.1 d := by
  rw [extractStep_eq_project, h]

theorem extract_foldl_eq (entries : List (String × JSValue)) :
    ∀ (acc : List (String × ParameterDefinition)),
      (entries.map Prod.fst).Nodup →
      (∀ k, k ∈ entries.map Prod.fst → k ∉ acc.map Prod.fst) →
      entries.foldl extractStep acc =
        acc ++ entries.filterMap
          (fun kv => (projectParamSpec kv.2).map (fun d => (kv.1, d))) := by
  induction entries with
  | nil => intro acc _ _; simp
  | cons kv rest ih =>
    intro acc hnd hdisj
    obtain ⟨k, value⟩ := kv
    simp only [List.map_cons, List.nodup_cons] at hnd
    obtain ⟨hknotin, hndrest⟩ := hnd
    rw [List.foldl_cons]
    cases hproj : projectParamSpec value with
    | none =>
      rw [extractStep_of_project_none acc (k, value) hproj]
      rw [ih acc hndrest (fun x hx => hdisj x (by simp [hx]))]
      simp [List.filterMap_cons, hproj]
    | some d =>
      have hkacc : k ∉ acc.map Prod.fst := hdisj k (by simp)
      rw [extractStep_of_project_some acc (k, value) d hproj]
      have hdisj2 : ∀ x, x ∈ rest.map Prod.fst →
          x ∉ (setKey acc k d).map Prod.fst := by
        intro x hx
        rw [setKey_of_not_mem acc k d hkacc, List.map_append, List.mem_append]
        push_neg
        constructor
        · exact hdisj x (by simp [hx])
        · simp only [List.map_cons, List.map_nil, List.mem_singleton]
          intro hxk
          exact hknotin (hxk ▸ hx)
      rw [ih (setKey acc k d) hndrest hdisj2]
      rw [setKey_of_not_mem acc k d hkacc]
      simp [List.filterMap_cons, hproj]

/-- C7: lenient parameter extraction — on a `parameters` mapping with
distinct keys, `extractParameters` returns exactly the entries whose value
is an object carrying a recognized `type` string, each projected to
`{type, description, required, default}`, and silently omits every other
entry. -/
theorem c7_lenient_extraction (metadata : List (String × JSValue))
    (hnd : ((paramsObjOf metadata).map Prod.fst).Nodup) :
    extractParameters metadata = extractParametersSpec metadata := by
  unfold extractParameters extractParametersSpec
  exact extract_foldl_eq (paramsObjOf metadata) [] hnd (by simp)

/-- The example mapping of the claim:
`parameters = {a: {type:"string", required:true}, z: "ignore"}`. -/
def c7exampleMeta : List (String × JSValue) :=
  [("parameters", JSValue.obj
     [("a", JSValue.obj [("type", JSValue.str "string"), ("required", JSValue.bool true)]),
      ("z", JSValue.str "ignore")])]

/-- C7 witness: the claim's example — `z` is absent from the result, and
`a` is projected with `description`/`default` undefined. -/
theorem c7_witness :
    ((paramsObjOf c7exampleMeta).map Prod.fst).Nodup ∧
    extractParameters c7exampleMeta = extractParametersSpec c7exampleMeta ∧
    extractParameters c7exampleMeta =
      [("a", { type := "string", description := none, required := some true,
               default := JSValue.undefined })] :=
  ⟨by decide, c7_lenient_extraction c7exampleMeta (by decide), rfl⟩

/-- Does the `parameters` value fall in the claim's premise for C10:
absent (`undefined`), `null`, or a non-object primitive? -/
def isAbsentOrNonObject : JSValue → Bool
  | JSValue.obj _ => false
  | JSValue.arr _ => false
  | _ => true

/-- C10: when the `parameters` field of the metadata is absent, `null`, or
not an object (a string, number, boolean, function or symbol),
`extractParameters` returns the empty mapping — and, being a total
function, it never throws. -/
theorem c10_extract_parameters_empty (metadata : List (String × JSValue))
    (h : isAbsentOrNonObject
      ((List.lookup "parameters" metadata).getD JSValue.undefined) = true) :
    extractParameters metadata = [] := by
  unfold extractParameters paramsObjOf
  cases hv : (List.lookup "parameters" metadata).getD JSValue.undefined with
  | obj fields => rw [hv] at h; simp [isAbsentOrNonObject] at h
  | arr xs => rw [hv] at h; simp [isAbsentOrNonObject] at h
  | null => simp [truthy]
  | undefined => simp [truthy]
  | bool b => simp [truthy, typeofStr]
  | num n => simp [truthy, typeofStr]
  | str s => simp [truthy, typeofStr]
  | func f => simp [truthy, typeofStr]
  | sym s => simp [truthy, typeofStr]

/-- C10 witness: a string-valued `parameters` field yields the empty map. -/
theorem c10_witness :
    isAbsentOrNonObject
      ((List.lookup "parameters" [("parameters", JSValue.str "x")]).getD
        JSValue.undefined) = true ∧
    extractParameters [("parameters", JSValue.str "x")] = [] :=
  ⟨by decide, c10_extract_parameters_empty [("parameters", JSValue.str "x")] (by decide)⟩

/-- `String(v)` for the values reaching the fallthrough branch of
`toJSONValue` (functions, symbols, `undefined`); the printed form is the
one carried by the constructor. -/
def jsStringOf : JSValue → String
  | JSValue.undefined => "undefined"
  | JSValue.func src => src
  | JSValue.sym d => d
  | _ => ""

mutual

/-- `toJSONValue` from `src/config.ts` (utility section): primitives pass
through, arrays and objects are sanitized recursively, everything else is
coerced to its string form. -/
def toJSONValue : JSValue → JSValue
  | JSValue.null => JSValue.null
  | JSValue.str s => JSValue.str s
  | JSValue.num n => JSValue.num n
  | JSValue.bool b => JSValue.bool b
  | JSValue.arr xs => JSValue.arr (toJSONList xs)
  | JSValue.obj fields => JSValue.obj (toJSONFields fields)
  | JSValue.undefined => JSValue.str (jsStringOf JSValue.undefined)
  | JSValue.func src => JSValue.str (jsStringOf (JSValue.func src))
  | JSValue.sym d => JSValue.str (jsStringOf (JSValue.sym d))

/-- `v.map(toJSONValue)` over an array. -/
def toJSONList : List JSValue → List JSValue
  | [] => []
  | x :: xs => toJSONValue x :: toJSONList xs

/-- The `Object.entries` loop of `toJSONValue` over an object. -/
def toJSONFields : List (String × JSValue) → List (String × JSValue)
  | [] => []
  | (k, v) :: rest => (k, toJSONValue v) :: toJSONFields rest

end

/-- `sanitizeToMetadata` from `src/config.ts` (utility section). -/
def sanitizeToMetadata (rec : List (String × JSValue)) : JSValue :=
  toJSONValue (JSValue.obj rec)

mutual

/-- Is the value JSON-representable (null, booleans, numbers, strings, and
arrays/objects of such)? -/
def isJSONValueB : JSValue → Bool
  | JSValue.null => true
  | JSValue.bool _ => true
  | JSValue.num _ => true
  | JSValue.str _ => true
  | JSValue.arr xs => isJSONListB xs
  | JSValue.obj fields => isJSONFieldsB fields
  | JSValue.undefined => false
  | JSValue.func _ => false
  | JSValue.sym _ => false

/-- Every element of the list is JSON-representable. -/
def isJSONListB : List JSValue → Bool
  | [] => true
  | x :: xs => isJSONValueB x && isJSONListB xs

/-- Every field value of the list is JSON-representable. -/
def isJSONFieldsB : List (String × JSValue) → Bool
  | [] => true
  | (_, v) :: rest => isJSONValueB v && isJSONFieldsB rest

end

mutual

theorem toJSONValue_isJSON : ∀ (v : JSValue), isJSONValueB (toJSONValue v) = true
  | JSValue.null => rfl
  | JSValue.str _ => rfl
  | JSValue.num _ => rfl
  | JSValue.bool _ => rfl
  | JSValue.undefined => rfl
  | JSValue.func _ => rfl
  | JSValue.sym _ => rfl
  | JSValue.arr xs => by
    rw [toJSONValue]
    exact toJSONList_isJSON xs
  | JSValue.obj fields => by
    rw [toJSONValue]
    exact toJSONFields_isJSON fields

theorem toJSONList_isJSON : ∀ (xs : List JSValue), isJSONListB (toJSONList xs) = true
  | [] => rfl
  | x :: xs => by
    rw [toJSONList, isJSONListB, toJSONValue_isJSON x, toJSONList_isJSON xs]
    rfl

theorem toJSONFields_isJSON :
    ∀ (fields : List (String × JSValue)), isJSONFieldsB (toJSONFields fields) = true
  | [] => rfl
  | (k, v) :: rest => by
    rw [toJSONFields, isJSONFieldsB, toJSONValue_isJSON v, toJSONFields_isJSON rest]
    rfl

end

/-- C8 (partial, see the bug report): for every representable — hence
finite, acyclic — runtime value, `toJSONValue` terminates (it is a total
function of the inductive value) and its result is JSON-representable, and
likewise `sanitizeToMetadata` on every record.  Cyclic references are not
representable here; on them the source recurses without a cycle check. -/
theorem c8_sanitize_total_on_finite_values :
    (∀ (v : JSValue), isJSONValueB (toJSONValue v) = true) ∧
    (∀ (rec : List (String × JSValue)), isJSONValueB (sanitizeToMetadata rec) = true) :=
  ⟨toJSONValue_isJSON, fun rec => toJSONValue_isJSON (JSValue.obj rec)⟩

end EffectMdx
